import Mathlib

/-!
Verification development for the teambition-sdk data-access layer.

The development embeds, as executable Lean definitions, the reconciliation
and buffering engine of src/Net/Http.ts (class Net), the HTTP layer of
src/SDKFetch.ts (class SDKFetch, including its request deduplication map
FetchStack and query-string builder) and the store operations they schedule.
Reactive pipelines (RxJS observables) are embedded as the ordered traces of
primitive effects they perform when run; the external relational store
(reactivedb) is embedded as a table map with upsert and delete, exactly the
contract the engine relies on.
-/

namespace TBSDK

/-! ## JSON-style values and records

JavaScript values as they flow through the engine: primitives, undefined,
objects (ordered field lists) and arrays. A record is the field list of an
object; a field that is absent reads as undefined, matching the
typeof-is-undefined tests of the source. -/

inductive Val where
  | str (s : String)
  | num (n : Int)
  | boolV (b : Bool)
  | null
  | undef
  | obj (fields : List (String × Val))
  | arr (elems : List Val)

mutual

/-- Structural equality on values (the pk comparison the store model uses). -/
def valBeq : Val → Val → Bool
  | .str a, .str b => a == b
  | .num a, .num b => a == b
  | .boolV a, .boolV b => a == b
  | .null, .null => true
  | .undef, .undef => true
  | .obj a, .obj b => fieldsBeq a b
  | .arr a, .arr b => elemsBeq a b
  | _, _ => false

def fieldsBeq : List (String × Val) → List (String × Val) → Bool
  | [], [] => true
  | (k, v) :: r, (k2, v2) :: r2 => k == k2 && valBeq v v2 && fieldsBeq r r2
  | _, _ => false

def elemsBeq : List Val → List Val → Bool
  | [], [] => true
  | v :: r, v2 :: r2 => valBeq v v2 && elemsBeq r r2
  | _, _ => false

end

mutual

/-- Embedding of JSON.stringify as used by Net.genCacheKey: a deterministic
serialization of a value. String escaping is not modelled (no key of the
engine depends on it); field order follows insertion order as in JS. -/
def jsonStr : Val → String
  | .str s => "\"" ++ s ++ "\""
  | .num n => toString n
  | .boolV b => if b then "true" else "false"
  | .null => "null"
  | .undef => "undefined"
  | .obj l => "\x7b" ++ jsonFields l ++ "\x7d"
  | .arr l => "[" ++ jsonElems l ++ "]"

def jsonFields : List (String × Val) → String
  | [] => ""
  | [(k, v)] => "\"" ++ k ++ "\":" ++ jsonStr v
  | (k, v) :: r => "\"" ++ k ++ "\":" ++ jsonStr v ++ "," ++ jsonFields r

def jsonElems : List Val → String
  | [] => ""
  | [v] => jsonStr v
  | v :: r => jsonStr v ++ "," ++ jsonElems r

end

/-- A JS object as a field list. -/
def Rec := List (String × Val)

instance : Append Rec := ⟨List.append⟩

def Val.isUndef : Val → Bool
  | .undef => true
  | _ => false

/-- Reading a property: absent fields read as undefined. -/
def getFld : Rec → String → Val
  | [], _ => .undef
  | (k, v) :: r, key => if k == key then v else getFld r key

/-- Writing a property: updates the first occurrence in place (JS objects
keep the original key position on assignment), appends otherwise. -/
def setFld : Rec → String → Val → Rec
  | [], key, v => [(key, v)]
  | (k, w) :: r, key, v =>
    if k == key then (k, v) :: r else (k, w) :: setFld r key v

/-- Object.assign target source: copy every field of the source onto the
target, in source order. -/
def assignRec (target source : Rec) : Rec :=
  source.foldl (fun acc p => setFld acc p.1 p.2) target

/-- Fields of an object value; spreading a non-object contributes no fields
(the engine only spreads object payloads). -/
def objFields : Val → Rec
  | .obj l => l
  | _ => []

/-! ## The store (external collaborator)

reactivedb is external to the engine; this is the contract the engine uses:
tables of records, upsert keyed by the declared primary key, delete by a
conjunctive equality clause. -/

/-- A conjunctive where-clause: every listed field must equal its value. -/
def Clause := List (String × Val)

structure DB where
  tables : List (String × List Rec)

def getTable (db : DB) (t : String) : List Rec :=
  match db.tables.lookup t with
  | some rows => rows
  | none => []

def setTable (db : DB) (t : String) (rows : List Rec) : DB :=
  if (db.tables.lookup t).isSome then
    ⟨db.tables.map (fun p => if p.1 == t then (p.1, rows) else p)⟩
  else
    ⟨db.tables ++ [(t, rows)]⟩

/-- Upsert one record into a row list: replace the row with the same
primary-key value, append when no row matches. -/
def upsertRow (pk : String) (r : Rec) (rows : List Rec) : List Rec :=
  if rows.any (fun row => valBeq (getFld row pk) (getFld r pk)) then
    rows.map (fun row => if valBeq (getFld row pk) (getFld r pk) then r else row)
  else
    rows ++ [r]

/-- Database.upsert(tableName, value): value may be a single record or an
array of records; tables without a declared primary key are outside the
engine contract and left unchanged. -/
def dbUpsert (pks : List (String × String)) (t : String) (v : Val) (db : DB) : DB :=
  match pks.lookup t with
  | none => db
  | some pk =>
    match v with
    | .obj r => setTable db t (upsertRow pk r (getTable db t))
    | .arr l =>
      l.foldl (fun acc e =>
        match e with
        | .obj r => setTable acc t (upsertRow pk r (getTable acc t))
        | _ => acc) db
    | _ => db

def clauseMatches (c : Clause) (row : Rec) : Bool :=
  c.all (fun p => valBeq (getFld row p.1) p.2)

/-- Database.delete(tableName, clause): remove every row the clause matches. -/
def dbDelete (t : String) (c : Clause) (db : DB) : DB :=
  setTable db t ((getTable db t).filter (fun row => !clauseMatches c row))

/-- Rows of a table whose field equals a value (used to state row absence). -/
def rowsWith (db : DB) (t : String) (k : String) (v : Val) : List Rec :=
  (getTable db t).filter (fun row => valBeq (getFld row k) v)

end TBSDK

namespace TBSDK.Net

/-! ## Net data model (src/Net/Http.ts)

The engine state carries exactly the fields of class Net: the non-virtual
field lists and primary keys derived from the declared schemas, the
request-cache map, the (optional) attached database reference and the
pre-attachment operation buffer. The attached database is identified by a
numeric reference; its contents live in a separate DB value, acted on by the
store operations the engine schedules. -/

inductive CacheStrategy where
  | Request
  | Cache
deriving DecidableEq

/-- padding: (missedId) => Observable of the full record or null. One
emission is modelled; none stands for the null emission. -/
def PadFn := Val → Option TBSDK.Rec

structure ApiResultM where
  tableName : String
  query : List (String × Val)
  cacheValidate : CacheStrategy
  required : Option (List String)
  padding : Option PadFn
  assocFields : Option Val
  excludeFields : Option (List String)

inductive CUDMethod where
  | create
  | update
  | delete
deriving DecidableEq

/-- A create/update/delete descriptor; clause is only meaningful for
delete (UDResult.clause). The network result stream is modelled by passing
its emitted value to the functions that consume it. -/
structure CUDApiResultM where
  tableName : String
  method : CUDMethod
  clause : TBSDK.Clause

structure SocketMessage where
  id : String
  method : String
  data : Val

inductive CUDBufValue where
  | recV (v : Val)
  | clauseV (c : TBSDK.Clause)

inductive BufferObject where
  | cud (tableName : String) (method : String) (value : CUDBufValue)
  | socketCUD (arg : String) (socketMessage : SocketMessage) (pkName : String) (ty : Val)
  | selector (realSelectorInfo : ApiResultM)

structure NetState where
  fields : List (String × List String)
  primaryKeys : List (String × String)
  requestMap : List (String × Bool)
  database : Option Nat
  persistedDataBuffer : List BufferObject

/-- One declared schema field: its virtual and primaryKey flags. -/
structure FieldDef where
  virtual : Bool
  primaryKey : Bool

/-- The Net constructor: for each schema keep the non-virtual field names,
and record the first field flagged primaryKey (the source forEach stops at
the first one). -/
def netInit (schemas : List (String × List (String × FieldDef))) : NetState :=
  { fields := schemas.map (fun d => (d.1, (d.2.filter (fun p => !p.2.virtual)).map Prod.fst))
    primaryKeys := schemas.filterMap (fun d =>
      match d.2.find? (fun p => p.2.primaryKey) with
      | some p => some (d.1, p.1)
      | none => none)
    requestMap := []
    database := none
    persistedDataBuffer := [] }

def mapSet (m : List (String × Bool)) (k : String) (v : Bool) : List (String × Bool) :=
  if (m.lookup k).isSome then
    m.map (fun p => if p.1 == k then (p.1, v) else p)
  else
    m ++ [(k, v)]

/-- JS truthiness of the requestMap lookup (the requestCache test): only a
stored true counts as seen. -/
def optTrue : Option Bool → Bool
  | some b => b
  | none => false

structure InfoM where
  tableName : String
  q : List (String × Val)
  cacheValidate : CacheStrategy

/-- Net.getInfoFromResult: throws a TypeError when the table is not among
the declared schemas; otherwise builds the store query q as the caller
query extended with the projected field list (assocFields first, then every
declared non-virtual field not excluded). -/
def getInfoFromResult (st : NetState) (res : ApiResultM) : Except String InfoM :=
  match st.fields.lookup res.tableName with
  | none => .error ("table: " ++ res.tableName ++ " is not defined")
  | some preDefinedFields =>
    let assocPart : List Val :=
      match res.assocFields with
      | some a => [a]
      | none => []
    let excl : List String :=
      match res.excludeFields with
      | some l => l
      | none => []
    let projected : List Val :=
      assocPart ++ (preDefinedFields.filter (fun f => !excl.contains f)).map Val.str
    .ok { tableName := res.tableName
          q := TBSDK.setFld res.query "fields" (.arr projected)
          cacheValidate := res.cacheValidate }

/-- Net.genCacheKey: tableName ++ ":" ++ JSON.stringify(q). -/
def genCacheKey (tableName : String) (q : List (String × Val)) : String :=
  tableName ++ ":" ++ jsonStr (.obj q)

/-! ## Read plans

A read resolved against the attached store is a cold reactive pipeline; its
embedding is the ordered trace of effects the pipeline performs when run,
plus whether the validate (field-completion padding) stage was mapped onto
the returned QueryToken, plus the requestMap as it stands after the
pipeline has run once (the tap that marks a cache key seen fires at run
time, after the upsert emission). QueryToken.map mutates the token in
place (reactivedb semantics), so mapping validate marks the plan. -/

inductive ReadEvent where
  | netFetch
  | upsertE (table : String)
  | markSeen (key : String)
  | storeRead (table : String)
deriving DecidableEq

structure ReadPlan where
  events : List ReadEvent
  validateApplied : Bool
  requestMapAfterRun : List (String × Bool)

/-- Net.handleRequestCache (attached reads). CacheStrategy.Request: when
the cache key is unseen, the pipeline is
upsert-after-fetch, then the tap marking the key, then the store read-back;
when seen, a direct store read. The validate stage is mapped onto the token
in both sub-branches of the Request case, and in neither branch of the
Cache case (the source maps validate only under case CacheStrategy.Request).
CacheStrategy.Cache: always fetch, upsert and read back; no key is marked. -/
def handleRequestCache (st : NetState) (res : ApiResultM) : Except String ReadPlan := do
  let info ← getInfoFromResult st res
  let cacheKey := genCacheKey info.tableName info.q
  let requestCache := optTrue (st.requestMap.lookup cacheKey)
  match info.cacheValidate with
  | .Request =>
    if !requestCache then
      .ok { events := [.netFetch, .upsertE info.tableName, .markSeen cacheKey,
                       .storeRead info.tableName]
            validateApplied := true
            requestMapAfterRun := mapSet st.requestMap cacheKey true }
    else
      .ok { events := [.storeRead info.tableName]
            validateApplied := true
            requestMapAfterRun := st.requestMap }
  | .Cache =>
    .ok { events := [.netFetch, .upsertE info.tableName, .storeRead info.tableName]
          validateApplied := false
          requestMapAfterRun := st.requestMap }

/-- Net.bufferResponse (unattached reads): getInfoFromResult first (so an
unknown table still throws), then a Selector entry is buffered and a
QueryToken over the placeholder channel is returned with validate mapped
onto it. The placeholder performs no store effects until drained. -/
def bufferResponse (st : NetState) (res : ApiResultM) :
    Except String (NetState × ReadPlan) := do
  let _info ← getInfoFromResult st res
  .ok ({ st with persistedDataBuffer := st.persistedDataBuffer ++ [.selector res] },
       { events := []
         validateApplied := true
         requestMapAfterRun := st.requestMap })

/-- Net.handleApiResult: buffer the read when no database is attached,
dispatch to the cache-strategy logic otherwise. -/
def handleApiResult (st : NetState) (res : ApiResultM) :
    Except String (NetState × ReadPlan) :=
  match st.database with
  | none => bufferResponse st res
  | some _ => (handleRequestCache st res).map (fun plan => (st, plan))

/-! ## Scheduled store operations -/

inductive StoreOp where
  | upsertOp (table : String) (value : Val)
  | deleteOp (table : String) (clause : TBSDK.Clause)
  | dirtyOp (streamId : Nat)
  | selectorOp (plan : ReadPlan)

/-- Net.handleCUDAResult (attached writes): the store operation performed
when the caller request stream emits v. No table lookup happens on this
path: create and update become an upsert of v, delete becomes a delete with
the descriptor clause. -/
def handleCUDAResult (res : CUDApiResultM) (v : Val) : StoreOp :=
  match res.method with
  | .create => .upsertOp res.tableName v
  | .update => .upsertOp res.tableName v
  | .delete => .deleteOp res.tableName res.clause

/-- Net.bufferCUDResponse (unattached writes): when the caller request
stream emits v, push a CUD buffer entry; create and update are normalized
to the method string upsert, delete keeps its clause as the value. No table
lookup happens on this path either. -/
def bufferCUDResponse (st : NetState) (res : CUDApiResultM) (v : Val) : NetState :=
  { st with persistedDataBuffer := st.persistedDataBuffer ++
      [.cud res.tableName
        (match res.method with
         | .create => "upsert"
         | .update => "upsert"
         | .delete => "delete")
        (match res.method with
         | .delete => .clauseV res.clause
         | _ => .recV v)] }

/-- Net.bufferSocketPush: always appends the push message to the buffer and
returns a no-op acknowledgement. -/
def bufferSocketPush (st : NetState) (arg : String) (m : SocketMessage)
    (pkName : String) (ty : Val) : NetState :=
  { st with persistedDataBuffer := st.persistedDataBuffer ++
      [.socketCUD arg m pkName ty] }

/-- The synchronous outcome of Net.lift at issuance: reads go through
getInfoFromResult (which can throw), writes build their pipeline without
any schema check in either attachment state (handleCUDAResult and
bufferCUDResponse above), so the write arm never throws. -/
inductive LiftArg where
  | apiRes (res : ApiResultM)
  | cudRes (res : CUDApiResultM)

def liftIssue (st : NetState) : LiftArg → Except String NetState
  | .apiRes res => (handleApiResult st res).map Prod.fst
  | .cudRes _ => .ok st

end TBSDK.Net

namespace TBSDK.Net

/-! ## Field-completion padding (Net.validate)

The validate operator maps a result array through per-record padding. The
source runs the per-record streams under mergeMap (concurrently) and
forkJoin; the embedding linearizes them in array order, which fixes one
interleaving of the store upserts and leaves each record transform and each
padding invocation exactly as in the source (they are independent of the
store state). The output collects the transformed records, the resulting
store, the padding invocations (their arguments, in record order) and the
records upserted. -/

structure PadOut where
  data : List TBSDK.Rec
  db : TBSDK.DB
  calls : List Val
  upserts : List TBSDK.Rec

/-- One record of Net.validate: skip when there is no required list, no
padding function or no primary key for the table, or when every required
field is defined; otherwise invoke padding with the primary-key value, drop
a null replacement, and upsert then Object.assign a non-null replacement. -/
def validateDatum (pks : List (String × String)) (tableName : String)
    (required : Option (List String)) (padding : Option PadFn)
    (db : TBSDK.DB) (datum : TBSDK.Rec) :
    TBSDK.Rec × TBSDK.DB × List Val × List TBSDK.Rec :=
  match required, padding, pks.lookup tableName with
  | some req, some pad, some pk =>
    if req.all (fun k => !(TBSDK.getFld datum k).isUndef) then
      (datum, db, [], [])
    else
      match pad (TBSDK.getFld datum pk) with
      | none => (datum, db, [TBSDK.getFld datum pk], [])
      | some r =>
        (TBSDK.assignRec datum r, TBSDK.dbUpsert pks tableName (.obj r) db,
         [TBSDK.getFld datum pk], [r])
  | _, _, _ => (datum, db, [], [])

def validateGo (pks : List (String × String)) (tableName : String)
    (required : Option (List String)) (padding : Option PadFn) :
    List TBSDK.Rec → TBSDK.DB → PadOut
  | [], db => ⟨[], db, [], []⟩
  | d :: rest, db =>
    let step := validateDatum pks tableName required padding db d
    let out := validateGo pks tableName required padding rest step.2.1
    ⟨step.1 :: out.data, out.db, step.2.2.1 ++ out.calls, step.2.2.2 ++ out.upserts⟩

/-- Net.validate on a result array: an empty array short-circuits
(Observable.of(data)) with no padding work. -/
def validate (pks : List (String × String)) (tableName : String)
    (required : Option (List String)) (padding : Option PadFn)
    (data : List TBSDK.Rec) (db : TBSDK.DB) : PadOut :=
  if data.isEmpty then ⟨data, db, [], []⟩
  else validateGo pks tableName required padding data db

/-! ## Attaching the store: Net.persist

persist assigns this.database only when it is not yet set, walks the buffer
in order building the asyncQueue (one scheduled store operation per CUD or
socket entry, a redirected read plan per Selector entry), clears the buffer
and returns the queue, which concatAll then runs strictly in order.

Dirty.handleSocketMessage lives outside the provided sources; it is a
parameter of the embedding. Modelled from the spec: the domain-specific
dirty-field merge handler receives the push id, record type and payload and
returns either a merge stream (here an abstract stream id) or the no-handler
sentinel null (here none). -/

def DirtyHandler := String → Val → Val → Option Nat

/-- The asyncQueue entries scheduled for one buffer entry. CUD entries
dispatch dynamically on the stored method string, exactly like
database[v.method](v.tableName, v.value): upsert passes the stored value
through (a clause value would be upserted as the object it is), delete
reads the stored value as a clause (a record value acts as the conjunction
of its fields), any other method string is a synchronous type error. Socket
entries follow the push dispatch rules; a push whose method is none of
destroy, remove, new, change schedules nothing. Selector entries re-resolve
through handleRequestCache, which can throw on an undeclared table. -/
def translateOp (st : NetState) (dirtyH : DirtyHandler) :
    BufferObject → Except String (List StoreOp)
  | .cud tableName m v =>
    if m == "upsert" then
      .ok [.upsertOp tableName
        (match v with
         | .recV w => w
         | .clauseV c => .obj c)]
    else if m == "delete" then
      .ok [.deleteOp tableName
        (match v with
         | .clauseV c => c
         | .recV w => TBSDK.objFields w)]
    else
      .error ("database[" ++ m ++ "] is not a function")
  | .socketCUD arg m pkName ty =>
    if m.method == "destroy" || m.method == "remove" then
      .ok [.deleteOp arg
        [(pkName, if m.id == "" then m.data else .str m.id)]]
    else if m.method == "new" then
      .ok [.upsertOp arg m.data]
    else if m.method == "change" then
      match dirtyH m.id ty m.data with
      | some sid => .ok [.dirtyOp sid]
      | none =>
        .ok [.upsertOp arg (.obj (TBSDK.setFld (TBSDK.objFields m.data) pkName (.str m.id)))]
    else
      .ok []
  | .selector res => (handleRequestCache st res).map (fun plan => [.selectorOp plan])

def persistLoop (st : NetState) (dirtyH : DirtyHandler) :
    List BufferObject → Except String (List StoreOp)
  | [] => .ok []
  | b :: rest => do
    let ops ← translateOp st dirtyH b
    let more ← persistLoop st dirtyH rest
    .ok (ops ++ more)

/-- Net.persist(database): assign this.database only if unset, build the
asyncQueue from the buffer in insertion order, clear the buffer, return the
queue. A synchronous throw while building the queue (undeclared Selector
table) propagates and leaves no result, as in the source. The database
argument identifies the store the scheduled queue will run against. -/
def persist (st : NetState) (dirtyH : DirtyHandler) (database : Nat) :
    Except String (NetState × List StoreOp) :=
  let st1 :=
    match st.database with
    | none => { st with database := some database }
    | some _ => st
  (persistLoop st1 dirtyH st1.persistedDataBuffer).map
    (fun ops => ({ st1 with persistedDataBuffer := [] }, ops))

/-! ## Running the drained queue

Observable.from(asyncQueue).pipe(concatAll(), tap(error logging)) runs the
scheduled operations strictly in order; when one errors, tap logs the error
and re-raises it, so concatAll never subscribes the remaining operations.
The executor is a parameter (the store is external and its operations may
fail at run time). -/

structure DrainOut where
  db : TBSDK.DB
  executed : List StoreOp
  logged : Option String

def runQueue (exec : StoreOp → TBSDK.DB → Except String TBSDK.DB) :
    List StoreOp → TBSDK.DB → DrainOut
  | [], db => ⟨db, [], none⟩
  | op :: rest, db =>
    match exec op db with
    | .ok db2 =>
      let out := runQueue exec rest db2
      ⟨out.db, op :: out.executed, out.logged⟩
    | .error e => ⟨db, [], some e⟩

/-- The canonical executor over the pure store model: upserts and deletes
act on the DB and always succeed; dirty merge streams and selector
redirects perform no direct store mutation here. -/
def execStore (pks : List (String × String)) :
    StoreOp → TBSDK.DB → Except String TBSDK.DB
  | .upsertOp t v, db => .ok (TBSDK.dbUpsert pks t v db)
  | .deleteOp t c, db => .ok (TBSDK.dbDelete t c db)
  | .dirtyOp _, db => .ok db
  | .selectorOp _, db => .ok db

end TBSDK.Net

namespace TBSDK.Fetch

/-! ## SDKFetch (src/SDKFetch.ts)

The request deduplicator: SDKFetch.FetchStack maps the url-with-query key
of a GET to the shared stream created for it. Creating a stream is one
network invocation identity (a fresh stream id); the finalize operator
deletes the entry when the shared stream completes, errors or is dropped.
Only get() consults FetchStack, so the method component of the key is
constantly get. -/

structure FetchState where
  stack : List (String × Nat)
  nextStream : Nat

/-- SDKFetch.get keyed by urlWithQuery: reuse the stacked stream when the
key is present, otherwise create a fresh shared stream, stack it and hand
it out. -/
def sdkGet (s : FetchState) (urlWithQuery : String) : FetchState × Nat :=
  match s.stack.lookup urlWithQuery with
  | some streamId => (s, streamId)
  | none =>
    ({ stack := s.stack ++ [(urlWithQuery, s.nextStream)]
       nextStream := s.nextStream + 1 },
     s.nextStream)

/-- The finalize teardown of the shared stream: the FetchStack entry for
the key is deleted, on completion and on error alike. -/
def streamDone (s : FetchState) (urlWithQuery : String) : FetchState :=
  { s with stack := s.stack.filter (fun p => p.1 != urlWithQuery) }

/-- Well-formedness: FetchStack keys are unique and every stacked stream id
was allocated below the counter. -/
def fetchWF (s : FetchState) : Prop :=
  (s.stack.map Prod.fst).Nodup ∧ ∀ p ∈ s.stack, p.2 < s.nextStream

/-! ## SDKFetch query building (SDKFetch._buildQuery)

Query values as the builder distinguishes them: undefined, a defined
scalar (kept as its string rendering), or an array of possibly-undefined
elements. -/

inductive QVal where
  | qundef
  | qval (s : String)
  | qarr (elems : List (Option String))
deriving DecidableEq

/-- The pairs one query entry contributes: nothing for undefined, one
key=value pair for a defined scalar, one pair per defined array element. -/
def pairsOfEntry (k : String) : QVal → List String
  | .qundef => []
  | .qval s => [k ++ "=" ++ s]
  | .qarr es => es.filterMap (fun e => e.map (fun s => k ++ "=" ++ s))

/-- The forEach loop of _buildQuery: entries keyed by the reserved name
are skipped (with a logged warning), the others contribute their pairs in
order. -/
def queryPairs (query : List (String × QVal)) : List String :=
  query.foldl (fun acc p => if p.1 == "_" then acc else acc ++ pairsOfEntry p.1 p.2) []

/-- SDKFetch._buildQuery on an object query: join the collected pairs and
append them behind one separator chosen by whether the url already contains
a question mark; no pairs leaves the url untouched. (A non-object query
returns the url unchanged in the source; the embedding takes the object
case.) -/
def buildQuery (url : String) (query : List (String × QVal)) : String :=
  let result := queryPairs query
  let sep := if url.contains (Char.ofNat 63) then "&" else "?"
  url ++ (if result.isEmpty then "" else sep ++ String.intercalate "&" result)

/-! ## SDKFetch instance state and aliasing (getHeaders / getOptions)

JS object identity is modelled by a heap: numbered cells holding field
lists. The SDKFetch instance fields headers and options are references
into the heap; a shallow copy allocates a fresh cell holding the same
field list. -/

structure World where
  heap : Nat → TBSDK.Rec
  nextId : Nat

def updHeap (h : Nat → TBSDK.Rec) (r : Nat) (v : TBSDK.Rec) : Nat → TBSDK.Rec :=
  fun n => if n = r then v else h n

structure SDKFetchSt where
  apiHost : String
  token : String
  headersRef : Nat
  optionsRef : Nat

/-- SDKFetch.getHeaders: return a fresh shallow copy of this.headers. -/
def getHeaders (st : SDKFetchSt) (w : World) : Nat × World :=
  (w.nextId, ⟨updHeap w.heap w.nextId (w.heap st.headersRef), w.nextId + 1⟩)

/-- SDKFetch.getOptions: return a fresh shallow copy of this.options. -/
def getOptions (st : SDKFetchSt) (w : World) : Nat × World :=
  (w.nextId, ⟨updHeap w.heap w.nextId (w.heap st.optionsRef), w.nextId + 1⟩)

/-- The SDKFetch methods that can touch the instance state, as calls. A
request call stands for get/post/put/delete, whose setOptionsPerRequest
only reads this.headers, this.token and this.options: when per-request
headers are given with merge, it allocates the merged object; it assigns
nothing to the instance fields. -/
inductive SDKCall where
  | callSetAPIHost (h : String)
  | callGetAPIHost
  | callSetToken (t : String)
  | callGetToken
  | callSetHeaders (r : Nat)
  | callGetHeaders
  | callSetOptions (r : Nat)
  | callGetOptions
  | callRequest (perReqHeaders : Option (Nat × Bool))

def stepSDK : SDKCall → SDKFetchSt × World → SDKFetchSt × World
  | .callSetAPIHost h, (st, w) => ({ st with apiHost := h }, w)
  | .callGetAPIHost, (st, w) => (st, w)
  | .callSetToken t, (st, w) => ({ st with token := t }, w)
  | .callGetToken, (st, w) => (st, w)
  | .callSetHeaders r, (st, w) => ({ st with headersRef := r }, w)
  | .callGetHeaders, (st, w) => (st, (getHeaders st w).2)
  | .callSetOptions r, (st, w) => ({ st with optionsRef := r }, w)
  | .callGetOptions, (st, w) => (st, (getOptions st w).2)
  | .callRequest none, (st, w) => (st, w)
  | .callRequest (some (hr, merge)), (st, w) =>
    if merge then
      (st, ⟨updHeap w.heap w.nextId
              (TBSDK.assignRec (w.heap st.headersRef) (w.heap hr)),
            w.nextId + 1⟩)
    else
      (st, w)

def isSetHeaders : SDKCall → Bool
  | .callSetHeaders _ => true
  | _ => false

def isSetOptions : SDKCall → Bool
  | .callSetOptions _ => true
  | _ => false

/-- Well-formedness of an instance against a world: its object references
were allocated. -/
def sdkWF (st : SDKFetchSt) (w : World) : Prop :=
  st.headersRef < w.nextId ∧ st.optionsRef < w.nextId

end TBSDK.Fetch

namespace TBSDK.Net

/-! ## Concrete fixtures

Concrete schemas, engine states and buffers used to evaluate the
definitions on closed inputs. -/

/-- A dirty-field merge handler with no domain handlers (the sentinel for
every record type). -/
def dirtyNone : DirtyHandler := fun _ _ _ => none

def fieldsT : List (String × List String) := [("tasks", ["_id"])]

def pksT : List (String × String) := [("tasks", "_id")]

/-- An engine state over the tasks schema. -/
def mkNetSt (db : Option Nat) (buf : List BufferObject) : NetState :=
  { fields := fieldsT
    primaryKeys := pksT
    requestMap := []
    database := db
    persistedDataBuffer := buf }

def rec1 : Val := .obj [("_id", .str "1")]

def rec2 : Val := .obj [("_id", .str "2")]

def cudU1 : BufferObject := .cud "tasks" "upsert" (.recV rec1)

def cudU2 : BufferObject := .cud "tasks" "upsert" (.recV rec2)

def cudD1 : BufferObject := .cud "tasks" "delete" (.clauseV [("_id", .str "1")])

/-- A padding function returning the record with the field foo set. -/
def padW : PadFn := fun _ => some [("foo", .str "x")]

/-- A read descriptor over tasks with the given strategy. -/
def mkRead (strat : CacheStrategy) : ApiResultM :=
  { tableName := "tasks"
    query := []
    cacheValidate := strat
    required := some ["foo"]
    padding := some padW
    assocFields := none
    excludeFields := none }

/-- A store executor that fails on the upsert whose primary key equals the
marker and behaves as the pure store otherwise. -/
def execFailOn (pks : List (String × String)) (marker : Val) :
    StoreOp → TBSDK.DB → Except String TBSDK.DB := fun op db =>
  match op with
  | .upsertOp _ v =>
    if valBeq (TBSDK.getFld (TBSDK.objFields v) "_id") marker then
      .error "store failure"
    else
      execStore pks op db
  | _ => execStore pks op db

/-- A push message: method destroy with an empty id and a bare string
payload. -/
def sockFalsy : SocketMessage := { id := "", method := "destroy", data := .str "99" }

/-- The spec example push message: destroy with id 42. -/
def sock42 : SocketMessage := { id := "42", method := "destroy", data := .null }

/-- A write descriptor against an undeclared table. -/
def cudGhost : CUDApiResultM := { tableName := "ghost", method := .create, clause := [] }

/-- An engine state with no declared schemas at all, attached. -/
def stNoSchema : NetState :=
  { fields := []
    primaryKeys := []
    requestMap := []
    database := some 0
    persistedDataBuffer := [] }

end TBSDK.Net

namespace TBSDK

/-! ## Helper lemmas -/

theorem lookup_append_of_none {α β : Type} [BEq α] (l l2 : List (α × β)) (k : α)
    (h : l.lookup k = none) : (l ++ l2).lookup k = l2.lookup k := by
  induction l with
  | nil => simp
  | cons p rest ih =>
    obtain ⟨a, b⟩ := p
    simp only [List.lookup] at h ⊢
    cases hak : k == a with
    | true => rw [hak] at h; simp at h
    | false => rw [hak] at h; simpa [hak] using ih h

theorem lookup_filter_ne {β : Type} (l : List (String × β)) (k : String) :
    (l.filter (fun p => p.1 != k)).lookup k = none := by
  induction l with
  | nil => simp
  | cons p rest ih =>
    obtain ⟨a, b⟩ := p
    by_cases hak : a = k
    · subst hak
      simpa using ih
    · simp only [List.filter]
      have h1 : (a != k) = true := by simp [hak]
      rw [h1]
      simp only [List.lookup]
      have h2 : (k == a) = false := by simp [Ne.symm hak]
      rw [h2]
      exact ih

theorem exists_mem_of_lookup {α β : Type} [BEq α] [LawfulBEq α]
    (l : List (α × β)) (k : α) (v : β)
    (h : l.lookup k = some v) : (k, v) ∈ l := by
  induction l with
  | nil => simp at h
  | cons p rest ih =>
    obtain ⟨a, b⟩ := p
    simp only [List.lookup] at h
    cases hak : k == a with
    | true =>
      rw [hak] at h
      simp at h
      subst h
      have : k = a := by simpa using hak
      subst this
      exact List.mem_cons_self _ _
    | false =>
      rw [hak] at h
      exact List.mem_cons_of_mem _ (ih h)

end TBSDK

namespace TBSDK.Net

/-- Claim C3: for every read issued in the attached state with the
ReuseRequest (CacheStrategy.Request) cache strategy: when the cache key
(genCacheKey of the table name and serialized store query) is unseen, the
resolved pipeline fetches from network, upserts the result into the store,
marks the key seen only then (strictly after the upsert, as the trace
order shows), and finally reads back from the store; when the key is
already seen, the pipeline is a direct store read with no network fetch,
and the request map is left unchanged. -/
theorem C3_reuse_request_read (st : NetState) (res : ApiResultM) (info : InfoM)
    (dref : Nat)
    (hdb : st.database = some dref)
    (hinfo : getInfoFromResult st res = .ok info)
    (hstrat : info.cacheValidate = CacheStrategy.Request) :
    handleApiResult st res = .ok (st,
      if optTrue (st.requestMap.lookup (genCacheKey info.tableName info.q)) then
        { events := [.storeRead info.tableName]
          validateApplied := true
          requestMapAfterRun := st.requestMap }
      else
        { events := [.netFetch, .upsertE info.tableName,
                     .markSeen (genCacheKey info.tableName info.q),
                     .storeRead info.tableName]
          validateApplied := true
          requestMapAfterRun :=
            mapSet st.requestMap (genCacheKey info.tableName info.q) true }) := by
  simp only [handleApiResult, hdb, handleRequestCache, hinfo, Except.bind, bind]
  rw [hstrat]
  cases hseen : optTrue (st.requestMap.lookup (genCacheKey info.tableName info.q)) with
  | true => simp [hseen, Except.map]
  | false => simp [hseen, Except.map]

/-- Witness for C3 at a concrete attached state over the tasks schema with
an empty request map (the unseen case). -/
theorem C3_witness :
    ((mkNetSt (some 0) []).database = some 0 ∧
     getInfoFromResult (mkNetSt (some 0) []) (mkRead .Request) =
       .ok ⟨"tasks", [("fields", .arr [.str "_id"])], .Request⟩ ∧
     (InfoM.cacheValidate ⟨"tasks", [("fields", .arr [.str "_id"])], .Request⟩ =
       CacheStrategy.Request)) ∧
    handleApiResult (mkNetSt (some 0) []) (mkRead .Request) = .ok (mkNetSt (some 0) [],
      if optTrue ((mkNetSt (some 0) []).requestMap.lookup
          (genCacheKey "tasks" [("fields", .arr [.str "_id"])])) then
        { events := [.storeRead "tasks"]
          validateApplied := true
          requestMapAfterRun := (mkNetSt (some 0) []).requestMap }
      else
        { events := [.netFetch, .upsertE "tasks",
                     .markSeen (genCacheKey "tasks" [("fields", .arr [.str "_id"])]),
                     .storeRead "tasks"]
          validateApplied := true
          requestMapAfterRun := mapSet (mkNetSt (some 0) []).requestMap
            (genCacheKey "tasks" [("fields", .arr [.str "_id"])]) true }) :=
  ⟨⟨rfl, rfl, rfl⟩,
   C3_reuse_request_read (mkNetSt (some 0) []) (mkRead .Request)
     ⟨"tasks", [("fields", .arr [.str "_id"])], .Request⟩ 0 rfl rfl rfl⟩

end TBSDK.Net

namespace TBSDK.Fetch

theorem lookup_none_keys {β : Type} (l : List (String × β)) (k : String)
    (h : l.lookup k = none) : ∀ p ∈ l, p.1 ≠ k := by
  induction l with
  | nil => simp
  | cons p rest ih =>
    obtain ⟨a, b⟩ := p
    simp only [List.lookup] at h
    cases hak : k == a with
    | true => rw [hak] at h; simp at h
    | false =>
      rw [hak] at h
      intro q hq
      rcases List.mem_cons.mp hq with hq1 | hq2
      · subst hq1
        simp only [ne_eq]
        intro hk
        subst hk
        simp at hak
      · exact ih h q hq2

theorem fetchWF_sdkGet (s : FetchState) (k : String) (hwf : fetchWF s) :
    fetchWF (sdkGet s k).1 := by
  obtain ⟨hnd, hlt⟩ := hwf
  cases h0 : s.stack.lookup k with
  | some id => simpa [sdkGet, h0] using ⟨hnd, hlt⟩
  | none =>
    simp only [sdkGet, h0]
    constructor
    · simp only [List.map_append, List.map_cons, List.map_nil]
      rw [List.nodup_append]
      refine ⟨hnd, List.nodup_singleton _, ?_⟩
      intro a ha
      simp only [List.mem_singleton]
      intro hk
      subst hk
      rcases List.mem_map.mp ha with ⟨p, hp, hpa⟩
      exact lookup_none_keys s.stack a h0 p hp hpa
    · intro p hp
      rcases List.mem_append.mp hp with hp | hp
      · exact Nat.lt_succ_of_lt (hlt p hp)
      · simp only [List.mem_singleton] at hp
        subst hp
        exact Nat.lt_succ_self _

/-- Claim C4: the request deduplicator keeps at most one in-flight shared
stream per key: a second get with the same key before completion returns
the very same stream (and allocates nothing new), FetchStack keys stay
unique with every stacked stream allocated below the counter, the finalize
teardown removes the entry (on completion and on error alike, so a failed
fetch is retriable), and a get issued after the teardown creates a strictly
newer stream, that is, a new network invocation. -/
theorem C4_deduplicator (s0 : FetchState) (k : String) (hwf : fetchWF s0) :
    (sdkGet (sdkGet s0 k).1 k).2 = (sdkGet s0 k).2 ∧
    (sdkGet (sdkGet s0 k).1 k).1 = (sdkGet s0 k).1 ∧
    (sdkGet s0 k).1.nextStream ≤ s0.nextStream + 1 ∧
    fetchWF (sdkGet s0 k).1 ∧
    (streamDone (sdkGet s0 k).1 k).stack.lookup k = none ∧
    (sdkGet s0 k).2 < (sdkGet (streamDone (sdkGet s0 k).1 k) k).2 := by
  obtain ⟨hnd, hlt⟩ := hwf
  have hdone : ∀ s : FetchState, (streamDone s k).stack.lookup k = none := by
    intro s
    exact TBSDK.lookup_filter_ne s.stack k
  cases h0 : s0.stack.lookup k with
  | some id =>
    have hid : id < s0.nextStream := hlt _ (TBSDK.exists_mem_of_lookup _ _ _ h0)
    have hs1 : sdkGet s0 k = (s0, id) := by simp [sdkGet, h0]
    rw [hs1]
    refine ⟨?_, ?_, Nat.le_succ _, ⟨hnd, hlt⟩, hdone s0, ?_⟩
    · simp [sdkGet, h0]
    · simp [sdkGet, h0]
    · simpa [sdkGet, streamDone, TBSDK.lookup_filter_ne] using hid
  | none =>
    have hfresh : (s0.stack ++ [(k, s0.nextStream)]).lookup k = some s0.nextStream := by
      rw [TBSDK.lookup_append_of_none _ _ _ h0]
      simp [List.lookup]
    have hs1 : sdkGet s0 k =
        (⟨s0.stack ++ [(k, s0.nextStream)], s0.nextStream + 1⟩, s0.nextStream) := by
      simp [sdkGet, h0]
    refine ⟨?_, ?_, ?_, fetchWF_sdkGet s0 k ⟨hnd, hlt⟩, ?_, ?_⟩
    · rw [hs1]
      simp [sdkGet, hfresh]
    · rw [hs1]
      simp [sdkGet, hfresh]
    · simp [hs1]
    · rw [hs1]
      exact hdone _
    · rw [hs1]
      have h3 : (sdkGet (streamDone
          (⟨s0.stack ++ [(k, s0.nextStream)], s0.nextStream + 1⟩ : FetchState) k) k).2 =
          s0.nextStream + 1 := by
        simp [sdkGet, streamDone, TBSDK.lookup_filter_ne]
      rw [h3]
      exact Nat.lt_succ_self _

/-- Witness for C4 on the empty FetchStack and a concrete GET key. -/
theorem C4_witness :
    fetchWF ⟨[], 0⟩ ∧
    ((sdkGet (sdkGet ⟨[], 0⟩ "api/tasks?a=1").1 "api/tasks?a=1").2 =
       (sdkGet ⟨[], 0⟩ "api/tasks?a=1").2 ∧
     (sdkGet (sdkGet ⟨[], 0⟩ "api/tasks?a=1").1 "api/tasks?a=1").1 =
       (sdkGet ⟨[], 0⟩ "api/tasks?a=1").1 ∧
     (sdkGet ⟨[], 0⟩ "api/tasks?a=1").1.nextStream ≤ 0 + 1 ∧
     fetchWF (sdkGet ⟨[], 0⟩ "api/tasks?a=1").1 ∧
     (streamDone (sdkGet ⟨[], 0⟩ "api/tasks?a=1").1 "api/tasks?a=1").stack.lookup
       "api/tasks?a=1" = none ∧
     (sdkGet ⟨[], 0⟩ "api/tasks?a=1").2 <
       (sdkGet (streamDone (sdkGet ⟨[], 0⟩ "api/tasks?a=1").1 "api/tasks?a=1")
         "api/tasks?a=1").2) :=
  ⟨⟨by simp, by simp⟩,
   C4_deduplicator ⟨[], 0⟩ "api/tasks?a=1" ⟨by simp, by simp⟩⟩

end TBSDK.Fetch


namespace TBSDK.Fetch

theorem queryPairs_acc (l : List (String × QVal)) (acc : List String) :
    l.foldl (fun a p => if p.1 == "_" then a else a ++ pairsOfEntry p.1 p.2) acc =
    acc ++ queryPairs l := by
  induction l generalizing acc with
  | nil => simp [queryPairs]
  | cons p rest ih =>
    simp only [queryPairs, List.foldl_cons]
    cases hp : p.1 == "_" with
    | true =>
      simp only [eq_self_iff_true, if_true]
      rw [ih acc, ih []]
      simp
    | false =>
      simp only [Bool.false_eq_true, if_false]
      rw [ih (acc ++ pairsOfEntry p.1 p.2), ih ([] ++ pairsOfEntry p.1 p.2)]
      simp

theorem queryPairs_cons (p : String × QVal) (l : List (String × QVal)) :
    queryPairs (p :: l) =
      (if p.1 == "_" then [] else pairsOfEntry p.1 p.2) ++ queryPairs l := by
  simp only [queryPairs, List.foldl_cons]
  cases hp : p.1 == "_" with
  | true =>
    simp only [eq_self_iff_true, if_true]
    simp [queryPairs]
  | false =>
    simp only [Bool.false_eq_true, if_false]
    rw [queryPairs_acc l ([] ++ pairsOfEntry p.1 p.2)]
    simp [queryPairs]

theorem queryPairs_append (a b : List (String × QVal)) :
    queryPairs (a ++ b) = queryPairs a ++ queryPairs b := by
  induction a with
  | nil => simp [queryPairs]
  | cons p rest ih =>
    rw [List.cons_append, queryPairs_cons, queryPairs_cons, ih, List.append_assoc]

/-- Claim C10: the query string built by SDKFetch._buildQuery never keeps a
caller-supplied entry keyed by the reserved underscore name (such entries
are dropped, with a warning, the name being reserved for the appended
cache-busting timestamp parameter), omits entries whose value is undefined,
expands an array value into one repeated key=value pair per defined
element, and prefixes the first appended parameter with the ampersand
separator exactly when the url already contains a question mark (the
question-mark separator otherwise); an empty pair list leaves the url
unchanged. -/
theorem C10_build_query (url : String) (query pre post : List (String × QVal))
    (k : String) (es : List (Option String)) :
    queryPairs query = queryPairs (query.filter (fun p => p.1 != "_")) ∧
    queryPairs query = queryPairs (query.filter (fun p => p.2 != QVal.qundef)) ∧
    queryPairs (pre ++ (k, QVal.qarr es) :: post) =
      queryPairs pre ++
        (if k == "_" then [] else
          es.filterMap (fun e => e.map (fun s => k ++ "=" ++ s))) ++
        queryPairs post ∧
    buildQuery url query =
      url ++ (if (queryPairs query).isEmpty then "" else
        (if url.contains (Char.ofNat 63) then "&" else "?") ++
          String.intercalate "&" (queryPairs query)) := by
  refine ⟨?_, ?_, ?_, ?_⟩
  · induction query with
    | nil => rfl
    | cons p rest ih =>
      by_cases hp : p.1 = "_"
      · rw [List.filter_cons_of_neg (by simp [hp])]
        rw [queryPairs_cons, if_pos (by simp [hp]), List.nil_append, ih]
      · rw [List.filter_cons_of_pos (by simp [hp])]
        rw [queryPairs_cons, queryPairs_cons, ih]
  · induction query with
    | nil => rfl
    | cons p rest ih =>
      by_cases hu : p.2 = QVal.qundef
      · rw [List.filter_cons_of_neg (by simp [hu])]
        rw [queryPairs_cons]
        have hz : pairsOfEntry p.1 p.2 = [] := by rw [hu]; rfl
        rw [hz, ite_self, List.nil_append, ih]
      · rw [List.filter_cons_of_pos (by simp [hu])]
        rw [queryPairs_cons, queryPairs_cons, ih]
  · rw [queryPairs_append, queryPairs_cons]
    simp [List.append_assoc, pairsOfEntry]
  · rfl

end TBSDK.Fetch

namespace TBSDK.Fetch

/-- Claim C9: SDKFetch.getHeaders and SDKFetch.getOptions return fresh
shallow copies: the returned object is a new heap cell distinct from the
instance field, holding the same field list, and writing any content
through the returned reference leaves the instance content unchanged;
moreover, across every SDKFetch method, the headers field is reassigned
only by setHeaders and the options field only by setOptions, and no method
writes through the instance references (request dispatch only reads them
and allocates fresh merged objects). -/
theorem C9_getter_copies (st : SDKFetchSt) (w : World) (hwf : sdkWF st w) :
    ((getHeaders st w).1 ≠ st.headersRef ∧
     (getHeaders st w).2.heap (getHeaders st w).1 = w.heap st.headersRef ∧
     ∀ v : TBSDK.Rec,
       updHeap (getHeaders st w).2.heap (getHeaders st w).1 v st.headersRef =
         w.heap st.headersRef) ∧
    ((getOptions st w).1 ≠ st.optionsRef ∧
     (getOptions st w).2.heap (getOptions st w).1 = w.heap st.optionsRef ∧
     ∀ v : TBSDK.Rec,
       updHeap (getOptions st w).2.heap (getOptions st w).1 v st.optionsRef =
         w.heap st.optionsRef) ∧
    (∀ c : SDKCall,
      (isSetHeaders c = false → (stepSDK c (st, w)).1.headersRef = st.headersRef) ∧
      (isSetOptions c = false → (stepSDK c (st, w)).1.optionsRef = st.optionsRef) ∧
      (stepSDK c (st, w)).2.heap st.headersRef = w.heap st.headersRef ∧
      (stepSDK c (st, w)).2.heap st.optionsRef = w.heap st.optionsRef) := by
  obtain ⟨hh, ho⟩ := hwf
  have hneh : st.headersRef ≠ w.nextId := Nat.ne_of_lt hh
  have hneo : st.optionsRef ≠ w.nextId := Nat.ne_of_lt ho
  refine ⟨⟨?_, ?_, ?_⟩, ⟨?_, ?_, ?_⟩, ?_⟩
  · simpa [getHeaders] using fun he => hneh he.symm
  · simp [getHeaders, updHeap]
  · intro v
    simp [getHeaders, updHeap, hneh]
  · simpa [getOptions] using fun he => hneo he.symm
  · simp [getOptions, updHeap]
  · intro v
    simp [getOptions, updHeap, hneo]
  · intro c
    cases c with
    | callSetAPIHost h => exact ⟨fun _ => rfl, fun _ => rfl, rfl, rfl⟩
    | callGetAPIHost => exact ⟨fun _ => rfl, fun _ => rfl, rfl, rfl⟩
    | callSetToken t => exact ⟨fun _ => rfl, fun _ => rfl, rfl, rfl⟩
    | callGetToken => exact ⟨fun _ => rfl, fun _ => rfl, rfl, rfl⟩
    | callSetHeaders r =>
      exact ⟨fun hc => by simp [isSetHeaders] at hc, fun _ => rfl, rfl, rfl⟩
    | callGetHeaders =>
      refine ⟨fun _ => rfl, fun _ => rfl, ?_, ?_⟩ <;>
        simp [stepSDK, getHeaders, updHeap, hneh, hneo]
    | callSetOptions r =>
      exact ⟨fun _ => rfl, fun hc => by simp [isSetOptions] at hc, rfl, rfl⟩
    | callGetOptions =>
      refine ⟨fun _ => rfl, fun _ => rfl, ?_, ?_⟩ <;>
        simp [stepSDK, getOptions, updHeap, hneh, hneo]
    | callRequest o =>
      rcases o with _ | ⟨hr, merge⟩
      · exact ⟨fun _ => rfl, fun _ => rfl, rfl, rfl⟩
      · cases merge with
        | false => exact ⟨fun _ => rfl, fun _ => rfl, rfl, rfl⟩
        | true =>
          refine ⟨fun _ => rfl, fun _ => rfl, ?_, ?_⟩ <;>
            simp [stepSDK, updHeap, hneh, hneo]

/-- Witness for C9 at a concrete instance (headers at cell 0, options at
cell 1, two allocated cells). -/
theorem C9_witness :
    sdkWF ⟨"https://www.teambition.com/api", "", 0, 1⟩ ⟨fun _ => [], 2⟩ ∧
    (((getHeaders ⟨"https://www.teambition.com/api", "", 0, 1⟩ ⟨fun _ => [], 2⟩).1 ≠
        (⟨"https://www.teambition.com/api", "", 0, 1⟩ : SDKFetchSt).headersRef ∧
      (getHeaders ⟨"https://www.teambition.com/api", "", 0, 1⟩ ⟨fun _ => [], 2⟩).2.heap
          (getHeaders ⟨"https://www.teambition.com/api", "", 0, 1⟩ ⟨fun _ => [], 2⟩).1 =
        (⟨fun _ => [], 2⟩ : World).heap
          (⟨"https://www.teambition.com/api", "", 0, 1⟩ : SDKFetchSt).headersRef ∧
      ∀ v : TBSDK.Rec,
        updHeap
            (getHeaders ⟨"https://www.teambition.com/api", "", 0, 1⟩ ⟨fun _ => [], 2⟩).2.heap
            (getHeaders ⟨"https://www.teambition.com/api", "", 0, 1⟩ ⟨fun _ => [], 2⟩).1 v
            (⟨"https://www.teambition.com/api", "", 0, 1⟩ : SDKFetchSt).headersRef =
          (⟨fun _ => [], 2⟩ : World).heap
            (⟨"https://www.teambition.com/api", "", 0, 1⟩ : SDKFetchSt).headersRef) ∧
     ((getOptions ⟨"https://www.teambition.com/api", "", 0, 1⟩ ⟨fun _ => [], 2⟩).1 ≠
        (⟨"https://www.teambition.com/api", "", 0, 1⟩ : SDKFetchSt).optionsRef ∧
      (getOptions ⟨"https://www.teambition.com/api", "", 0, 1⟩ ⟨fun _ => [], 2⟩).2.heap
          (getOptions ⟨"https://www.teambition.com/api", "", 0, 1⟩ ⟨fun _ => [], 2⟩).1 =
        (⟨fun _ => [], 2⟩ : World).heap
          (⟨"https://www.teambition.com/api", "", 0, 1⟩ : SDKFetchSt).optionsRef ∧
      ∀ v : TBSDK.Rec,
        updHeap
            (getOptions ⟨"https://www.teambition.com/api", "", 0, 1⟩ ⟨fun _ => [], 2⟩).2.heap
            (getOptions ⟨"https://www.teambition.com/api", "", 0, 1⟩ ⟨fun _ => [], 2⟩).1 v
            (⟨"https://www.teambition.com/api", "", 0, 1⟩ : SDKFetchSt).optionsRef =
          (⟨fun _ => [], 2⟩ : World).heap
            (⟨"https://www.teambition.com/api", "", 0, 1⟩ : SDKFetchSt).optionsRef) ∧
     (∀ c : SDKCall,
       (isSetHeaders c = false →
         (stepSDK c (⟨"https://www.teambition.com/api", "", 0, 1⟩, ⟨fun _ => [], 2⟩)).1.headersRef =
           (⟨"https://www.teambition.com/api", "", 0, 1⟩ : SDKFetchSt).headersRef) ∧
       (isSetOptions c = false →
         (stepSDK c (⟨"https://www.teambition.com/api", "", 0, 1⟩, ⟨fun _ => [], 2⟩)).1.optionsRef =
           (⟨"https://www.teambition.com/api", "", 0, 1⟩ : SDKFetchSt).optionsRef) ∧
       (stepSDK c (⟨"https://www.teambition.com/api", "", 0, 1⟩, ⟨fun _ => [], 2⟩)).2.heap
           (⟨"https://www.teambition.com/api", "", 0, 1⟩ : SDKFetchSt).headersRef =
         (⟨fun _ => [], 2⟩ : World).heap
           (⟨"https://www.teambition.com/api", "", 0, 1⟩ : SDKFetchSt).headersRef ∧
       (stepSDK c (⟨"https://www.teambition.com/api", "", 0, 1⟩, ⟨fun _ => [], 2⟩)).2.heap
           (⟨"https://www.teambition.com/api", "", 0, 1⟩ : SDKFetchSt).optionsRef =
         (⟨fun _ => [], 2⟩ : World).heap
           (⟨"https://www.teambition.com/api", "", 0, 1⟩ : SDKFetchSt).optionsRef)) :=
  ⟨⟨by decide, by decide⟩,
   C9_getter_copies ⟨"https://www.teambition.com/api", "", 0, 1⟩ ⟨fun _ => [], 2⟩
     ⟨by decide, by decide⟩⟩

end TBSDK.Fetch

namespace TBSDK.Net

theorem validateGo_spec (pks : List (String × String)) (t : String)
    (reqL : List String) (pad : PadFn) (pk : String)
    (hpk : pks.lookup t = some pk) :
    ∀ (data : List TBSDK.Rec) (db : TBSDK.DB),
      (validateGo pks t (some reqL) (some pad) data db).calls =
        data.filterMap (fun d =>
          if reqL.all (fun k => !(TBSDK.getFld d k).isUndef) then none
          else some (TBSDK.getFld d pk)) ∧
      (validateGo pks t (some reqL) (some pad) data db).data =
        data.map (fun d =>
          if reqL.all (fun k => !(TBSDK.getFld d k).isUndef) then d
          else
            match pad (TBSDK.getFld d pk) with
            | none => d
            | some r => TBSDK.assignRec d r) ∧
      (validateGo pks t (some reqL) (some pad) data db).upserts =
        data.filterMap (fun d =>
          if reqL.all (fun k => !(TBSDK.getFld d k).isUndef) then none
          else pad (TBSDK.getFld d pk)) := by
  intro data
  induction data with
  | nil => intro db; exact ⟨rfl, rfl, rfl⟩
  | cons d rest ih =>
    intro db
    simp only [validateGo, validateDatum, hpk]
    by_cases hall : reqL.all (fun k => !(TBSDK.getFld d k).isUndef) = true
    · rw [if_pos hall]
      simp only [List.filterMap_cons, List.map_cons, if_pos hall]
      obtain ⟨ih1, ih2, ih3⟩ := ih db
      exact ⟨by simpa using ih1, by simp [ih2], by simpa using ih3⟩
    · rw [if_neg hall]
      cases hpad : pad (TBSDK.getFld d pk) with
      | none =>
        simp only [List.filterMap_cons, List.map_cons, if_neg hall, hpad]
        obtain ⟨ih1, ih2, ih3⟩ := ih db
        exact ⟨by simp [ih1], by simp [ih2], by simpa using ih3⟩
      | some r =>
        simp only [List.filterMap_cons, List.map_cons, if_neg hall, hpad]
        obtain ⟨ih1, ih2, ih3⟩ := ih (TBSDK.dbUpsert pks t (.obj r) db)
        exact ⟨by simp [ih1], by simp [ih2], by simp [ih3]⟩

end TBSDK.Net

namespace TBSDK.Net

/-- Counterexample to claim C1 as stated: a read with required fields and
a padding function configured, resolved in the attached state under the
Cache (AlwaysRefetch) strategy, yields a pipeline onto which the validate
(field-completion padding) stage is never mapped — padding is not applied
under both cache strategies. -/
theorem C1_counterexample :
    (mkRead .Cache).required = some ["foo"] ∧
    (mkRead .Cache).padding.isSome = true ∧
    (handleRequestCache (mkNetSt (some 0) []) (mkRead .Cache)).map
      ReadPlan.validateApplied = .ok false :=
  ⟨rfl, rfl, rfl⟩

/-- Claim C1 (amended): field-completion padding is applied to reads
resolved under the Request (ReuseRequest) strategy — in both its
sub-branches — and to buffered pre-attachment reads, but not under the
Cache strategy; where the validate stage runs with a required list, a
padding function and a primary key configured, every record missing a
required field causes exactly one padding invocation with its primary-key
value, a non-null replacement is upserted into the store and its fields
merged (Object.assign) into the in-memory record, a null replacement
leaves the record as-is, records with all required fields defined trigger
nothing, and an empty result set short-circuits with no padding work. -/
theorem C1_padding (pks : List (String × String)) (t : String)
    (reqL : List String) (pad : PadFn) (pk : String)
    (data : List TBSDK.Rec) (db : TBSDK.DB)
    (st : NetState) (res : ApiResultM) (info : InfoM)
    (hpk : pks.lookup t = some pk)
    (hinfo : getInfoFromResult st res = .ok info)
    (hstrat : info.cacheValidate = CacheStrategy.Request) :
    validate pks t (some reqL) (some pad) [] db = ⟨[], db, [], []⟩ ∧
    (validate pks t (some reqL) (some pad) data db).calls =
      data.filterMap (fun d =>
        if reqL.all (fun k => !(TBSDK.getFld d k).isUndef) then none
        else some (TBSDK.getFld d pk)) ∧
    (validate pks t (some reqL) (some pad) data db).data =
      data.map (fun d =>
        if reqL.all (fun k => !(TBSDK.getFld d k).isUndef) then d
        else
          match pad (TBSDK.getFld d pk) with
          | none => d
          | some r => TBSDK.assignRec d r) ∧
    (validate pks t (some reqL) (some pad) data db).upserts =
      data.filterMap (fun d =>
        if reqL.all (fun k => !(TBSDK.getFld d k).isUndef) then none
        else pad (TBSDK.getFld d pk)) ∧
    (handleRequestCache st res).map ReadPlan.validateApplied = .ok true ∧
    (∀ (st2 : NetState) (res2 : ApiResultM) (out2 : NetState × ReadPlan),
      bufferResponse st2 res2 = .ok out2 → out2.2.validateApplied = true) := by
  refine ⟨rfl, ?_, ?_, ?_, ?_, ?_⟩
  · cases data with
    | nil => rfl
    | cons d rest => exact (validateGo_spec pks t reqL pad pk hpk (d :: rest) db).1
  · cases data with
    | nil => rfl
    | cons d rest => exact (validateGo_spec pks t reqL pad pk hpk (d :: rest) db).2.1
  · cases data with
    | nil => rfl
    | cons d rest => exact (validateGo_spec pks t reqL pad pk hpk (d :: rest) db).2.2
  · simp only [handleRequestCache, hinfo, Except.bind, bind]
    rw [hstrat]
    cases hseen : optTrue (st.requestMap.lookup (genCacheKey info.tableName info.q)) with
    | true => simp [hseen, Except.map]
    | false => simp [hseen, Except.map]
  · intro st2 res2 out2 hbuf
    simp only [bufferResponse, Except.bind, bind] at hbuf
    cases hi : getInfoFromResult st2 res2 with
    | error e => rw [hi] at hbuf; exact absurd hbuf (by simp)
    | ok i =>
      rw [hi] at hbuf
      simp only [Except.ok.injEq] at hbuf
      rw [← hbuf]

end TBSDK.Net

namespace TBSDK.Net

/-- Witness for C1 on the tasks schema: one record missing the required
field foo, padded by a function returning a record with foo set. -/
theorem C1_witness :
    (pksT.lookup "tasks" = some "_id" ∧
     getInfoFromResult (mkNetSt (some 0) []) (mkRead .Request) =
       .ok ⟨"tasks", [("fields", .arr [.str "_id"])], .Request⟩ ∧
     (InfoM.cacheValidate ⟨"tasks", [("fields", .arr [.str "_id"])], .Request⟩ =
       CacheStrategy.Request)) ∧
    (validate pksT "tasks" (some ["foo"]) (some padW) [] ⟨[]⟩ = ⟨[], ⟨[]⟩, [], []⟩ ∧
     (validate pksT "tasks" (some ["foo"]) (some padW)
         [[("_id", TBSDK.Val.str "1")]] ⟨[]⟩).calls =
       ([[("_id", TBSDK.Val.str "1")]] : List TBSDK.Rec).filterMap (fun d =>
         if ["foo"].all (fun k => !(TBSDK.getFld d k).isUndef) then none
         else some (TBSDK.getFld d "_id")) ∧
     (validate pksT "tasks" (some ["foo"]) (some padW)
         [[("_id", TBSDK.Val.str "1")]] ⟨[]⟩).data =
       ([[("_id", TBSDK.Val.str "1")]] : List TBSDK.Rec).map (fun d =>
         if ["foo"].all (fun k => !(TBSDK.getFld d k).isUndef) then d
         else
           match padW (TBSDK.getFld d "_id") with
           | none => d
           | some r => TBSDK.assignRec d r) ∧
     (validate pksT "tasks" (some ["foo"]) (some padW)
         [[("_id", TBSDK.Val.str "1")]] ⟨[]⟩).upserts =
       ([[("_id", TBSDK.Val.str "1")]] : List TBSDK.Rec).filterMap (fun d =>
         if ["foo"].all (fun k => !(TBSDK.getFld d k).isUndef) then none
         else padW (TBSDK.getFld d "_id")) ∧
     (handleRequestCache (mkNetSt (some 0) []) (mkRead .Request)).map
       ReadPlan.validateApplied = .ok true ∧
     (∀ (st2 : NetState) (res2 : ApiResultM) (out2 : NetState × ReadPlan),
       bufferResponse st2 res2 = .ok out2 → out2.2.validateApplied = true)) :=
  ⟨⟨rfl, rfl, rfl⟩,
   C1_padding pksT "tasks" ["foo"] padW "_id"
     [[("_id", TBSDK.Val.str "1")]] ⟨[]⟩
     (mkNetSt (some 0) []) (mkRead .Request)
     ⟨"tasks", [("fields", .arr [.str "_id"])], .Request⟩
     rfl rfl rfl⟩

end TBSDK.Net

namespace TBSDK.Net

theorem runQueue_error_stops (exec : StoreOp → TBSDK.DB → Except String TBSDK.DB)
    (bad : StoreOp) (post : List StoreOp) (e : String) :
    ∀ (pre : List StoreOp) (db db2 : TBSDK.DB),
      runQueue exec pre db = ⟨db2, pre, none⟩ →
      exec bad db2 = .error e →
      runQueue exec (pre ++ bad :: post) db = ⟨db2, pre, some e⟩ := by
  intro pre
  induction pre with
  | nil =>
    intro db db2 hpre hbad
    simp only [runQueue] at hpre
    have hdb : db = db2 := by
      have := congrArg DrainOut.db hpre
      simpa using this
    subst hdb
    simp only [List.nil_append, runQueue, hbad]
  | cons op rest ih =>
    intro db db2 hpre hbad
    simp only [runQueue] at hpre
    cases hop : exec op db with
    | error e2 =>
      rw [hop] at hpre
      have := congrArg DrainOut.executed hpre
      simp at this
    | ok dbm =>
      rw [hop] at hpre
      have h1 : (runQueue exec rest dbm).db = db2 := by
        have := congrArg DrainOut.db hpre
        simpa using this
      have h2 : (runQueue exec rest dbm).executed = rest := by
        have := congrArg DrainOut.executed hpre
        simpa using this
      have h3 : (runQueue exec rest dbm).logged = none := by
        have := congrArg DrainOut.logged hpre
        simpa using this
      have hrest : runQueue exec rest dbm = ⟨db2, rest, none⟩ := by
        cases hq : runQueue exec rest dbm
        rw [hq] at h1 h2 h3
        simp_all
      have hfin := ih dbm db2 hrest hbad
      show runQueue exec (op :: (rest ++ bad :: post)) db = _
      simp only [runQueue, hop, hfin]

/-- Counterexample to claim C2 as stated: draining a buffer of two upserts
against a store whose first upsert fails executes nothing beyond the
failure — the second buffered operation is never materialized, while the
claim asserts the remaining operations in the drain batch still execute. -/
theorem C2_counterexample :
    persist (mkNetSt none [cudU1, cudU2]) dirtyNone 0 =
      .ok (mkNetSt (some 0) [], [.upsertOp "tasks" rec1, .upsertOp "tasks" rec2]) ∧
    runQueue (execFailOn pksT (.str "1"))
        [.upsertOp "tasks" rec1, .upsertOp "tasks" rec2] ⟨[]⟩ =
      ⟨⟨[]⟩, [], some "store failure"⟩ ∧
    TBSDK.rowsWith (runQueue (execFailOn pksT (.str "1"))
        [.upsertOp "tasks" rec1, .upsertOp "tasks" rec2] ⟨[]⟩).db
      "tasks" "_id" (.str "2") = [] :=
  ⟨rfl, rfl, rfl⟩

/-- Claim C2 (amended): during the buffer drain, an error raised by one
scheduled operation is logged, and it is the only error the drain can
raise (first error wins trivially): the operations before the failing one
have executed, but concatAll re-raises the error, so the remaining
operations of the batch are not executed and the drain stops there. -/
theorem C2_drain_error (exec : StoreOp → TBSDK.DB → Except String TBSDK.DB)
    (st : NetState) (dirtyH : DirtyHandler) (dref : Nat) (stA : NetState)
    (pre post : List StoreOp) (bad : StoreOp)
    (db db2 : TBSDK.DB) (e : String)
    (_hp : persist st dirtyH dref = .ok (stA, pre ++ bad :: post))
    (hpre : runQueue exec pre db = ⟨db2, pre, none⟩)
    (hbad : exec bad db2 = .error e) :
    runQueue exec (pre ++ bad :: post) db = ⟨db2, pre, some e⟩ :=
  runQueue_error_stops exec bad post e pre db db2 hpre hbad

/-- Witness for C2: the first upsert of the drained batch succeeds, the
second fails; the drain logs the failure and executes nothing further. -/
theorem C2_witness :
    (persist (mkNetSt none [cudU1, cudU2]) dirtyNone 0 =
      .ok (mkNetSt (some 0) [],
        [StoreOp.upsertOp "tasks" rec1] ++ StoreOp.upsertOp "tasks" rec2 :: []) ∧
     runQueue (execFailOn pksT (.str "2")) [StoreOp.upsertOp "tasks" rec1] ⟨[]⟩ =
       ⟨⟨[("tasks", [[("_id", TBSDK.Val.str "1")]])]⟩,
        [StoreOp.upsertOp "tasks" rec1], none⟩ ∧
     execFailOn pksT (.str "2") (StoreOp.upsertOp "tasks" rec2)
       ⟨[("tasks", [[("_id", TBSDK.Val.str "1")]])]⟩ = .error "store failure") ∧
    runQueue (execFailOn pksT (.str "2"))
        ([StoreOp.upsertOp "tasks" rec1] ++ StoreOp.upsertOp "tasks" rec2 :: []) ⟨[]⟩ =
      ⟨⟨[("tasks", [[("_id", TBSDK.Val.str "1")]])]⟩,
       [StoreOp.upsertOp "tasks" rec1], some "store failure"⟩ :=
  ⟨⟨rfl, rfl, rfl⟩,
   C2_drain_error (execFailOn pksT (.str "2")) (mkNetSt none [cudU1, cudU2])
     dirtyNone 0 (mkNetSt (some 0) [])
     [StoreOp.upsertOp "tasks" rec1] [] (StoreOp.upsertOp "tasks" rec2)
     ⟨[]⟩ ⟨[("tasks", [[("_id", TBSDK.Val.str "1")]])]⟩ "store failure"
     rfl rfl rfl⟩

end TBSDK.Net

namespace TBSDK.Net

theorem persistLoop_forall2 (st : NetState) (dirtyH : DirtyHandler) :
    ∀ (buf : List BufferObject) (ops : List StoreOp),
      persistLoop st dirtyH buf = .ok ops →
      (∀ b ∈ buf, ∃ op, translateOp st dirtyH b = .ok [op]) →
      List.Forall₂ (fun b op => translateOp st dirtyH b = .ok [op]) buf ops := by
  intro buf
  induction buf with
  | nil =>
    intro ops hl _
    simp only [persistLoop] at hl
    cases hl
    exact List.Forall₂.nil
  | cons b rest ih =>
    intro ops hl hone
    obtain ⟨op, hop⟩ := hone b (List.mem_cons_self _ _)
    simp only [persistLoop, hop, Except.bind, bind] at hl
    cases hrest : persistLoop st dirtyH rest with
    | error e => rw [hrest] at hl; exact absurd hl (by simp)
    | ok more =>
      rw [hrest] at hl
      simp only [Except.ok.injEq] at hl
      subst hl
      exact List.Forall₂.cons hop
        (ih more hrest (fun b2 hb2 => hone b2 (List.mem_cons_of_mem _ hb2)))

/-- Claim C5: draining the buffer on attachment schedules each buffered
operation exactly once, in original insertion order (positionwise: the
i-th scheduled operation is the translation of the i-th buffered entry,
none duplicated or dropped), and the buffer is cleared once the whole
queue has been scheduled; in particular an upsert of row A followed by a
delete of row A, buffered in that order, leaves row A absent from the
store after the drained queue runs. -/
theorem C5_drain_order (st : NetState) (dirtyH : DirtyHandler) (dref : Nat)
    (stA : NetState) (ops : List StoreOp)
    (hdb : st.database = none)
    (hp : persist st dirtyH dref = .ok (stA, ops))
    (hone : ∀ b ∈ st.persistedDataBuffer,
      ∃ op, translateOp { st with database := some dref } dirtyH b = .ok [op]) :
    stA.persistedDataBuffer = [] ∧
    stA.database = some dref ∧
    List.Forall₂
      (fun b op => translateOp { st with database := some dref } dirtyH b = .ok [op])
      st.persistedDataBuffer ops ∧
    persist (mkNetSt none [cudU1, cudD1]) dirtyNone 0 =
      .ok (mkNetSt (some 0) [],
        [.upsertOp "tasks" rec1, .deleteOp "tasks" [("_id", .str "1")]]) ∧
    TBSDK.rowsWith (runQueue (execStore pksT)
        [.upsertOp "tasks" rec1, .deleteOp "tasks" [("_id", .str "1")]] ⟨[]⟩).db
      "tasks" "_id" (.str "1") = [] := by
  simp only [persist, hdb] at hp
  cases hl : persistLoop { st with database := some dref } dirtyH
      ({ st with database := some dref } : NetState).persistedDataBuffer with
  | error e => rw [hl] at hp; exact absurd hp (by simp [Except.map])
  | ok l =>
    rw [hl] at hp
    simp only [Except.map, Except.ok.injEq, Prod.mk.injEq] at hp
    obtain ⟨hst, hops⟩ := hp
    subst hops
    refine ⟨?_, ?_, ?_, rfl, rfl⟩
    · rw [← hst]
    · rw [← hst]
    · exact persistLoop_forall2 _ dirtyH _ l hl hone

/-- Witness for C5: the buffered upsert of row 1 followed by the buffered
delete of row 1 over the tasks schema. -/
theorem C5_witness :
    ((mkNetSt none [cudU1, cudD1]).database = none ∧
     persist (mkNetSt none [cudU1, cudD1]) dirtyNone 0 =
       .ok (mkNetSt (some 0) [],
         [.upsertOp "tasks" rec1, .deleteOp "tasks" [("_id", .str "1")]]) ∧
     (∀ b ∈ (mkNetSt none [cudU1, cudD1]).persistedDataBuffer,
       ∃ op, translateOp { mkNetSt none [cudU1, cudD1] with database := some 0 }
         dirtyNone b = .ok [op])) ∧
    ((mkNetSt (some 0) [] : NetState).persistedDataBuffer = [] ∧
     (mkNetSt (some 0) [] : NetState).database = some 0 ∧
     List.Forall₂
       (fun b op => translateOp { mkNetSt none [cudU1, cudD1] with database := some 0 }
         dirtyNone b = .ok [op])
       (mkNetSt none [cudU1, cudD1]).persistedDataBuffer
       [.upsertOp "tasks" rec1, .deleteOp "tasks" [("_id", .str "1")]] ∧
     persist (mkNetSt none [cudU1, cudD1]) dirtyNone 0 =
       .ok (mkNetSt (some 0) [],
         [.upsertOp "tasks" rec1, .deleteOp "tasks" [("_id", .str "1")]]) ∧
     TBSDK.rowsWith (runQueue (execStore pksT)
         [.upsertOp "tasks" rec1, .deleteOp "tasks" [("_id", .str "1")]] ⟨[]⟩).db
       "tasks" "_id" (.str "1") = []) :=
  ⟨⟨rfl, rfl, by
      intro b hb
      simp only [mkNetSt, List.mem_cons, List.not_mem_nil, or_false] at hb
      rcases hb with hb | hb
      · exact ⟨.upsertOp "tasks" rec1, by rw [hb]; rfl⟩
      · exact ⟨.deleteOp "tasks" [("_id", .str "1")], by rw [hb]; rfl⟩⟩,
   C5_drain_order (mkNetSt none [cudU1, cudD1]) dirtyNone 0
     (mkNetSt (some 0) [])
     [.upsertOp "tasks" rec1, .deleteOp "tasks" [("_id", .str "1")]]
     rfl rfl (by
      intro b hb
      simp only [mkNetSt, List.mem_cons, List.not_mem_nil, or_false] at hb
      rcases hb with hb | hb
      · exact ⟨.upsertOp "tasks" rec1, by rw [hb]; rfl⟩
      · exact ⟨.deleteOp "tasks" [("_id", .str "1")], by rw [hb]; rfl⟩)⟩

/-- Claim C6: attaching a store is idempotent with first-caller-wins
semantics: persist assigns the engine database reference only when it is
not yet set and never reassigns it (a first attach from the unattached
state pins its own reference, an attach in the attached state leaves the
existing reference), and a second attach call — even with a different
store — drains nothing (the buffer is already empty) and returns the
state unchanged. -/
theorem C6_attach_idempotent (st : NetState) (dirtyH : DirtyHandler) (d1 d2 : Nat)
    (stA : NetState) (ops1 : List StoreOp)
    (hp : persist st dirtyH d1 = .ok (stA, ops1)) :
    (st.database = none → stA.database = some d1) ∧
    (∀ r, st.database = some r → stA.database = some r) ∧
    persist stA dirtyH d2 = .ok (stA, []) := by
  have main : ∀ (st1 : NetState),
      (match st.database with
       | none => { st with database := some d1 }
       | some _ => st) = st1 →
      stA.database = st1.database ∧ stA.persistedDataBuffer = [] := by
    intro st1 h1
    simp only [persist, h1] at hp
    cases hl : persistLoop st1 dirtyH st1.persistedDataBuffer with
    | error e => rw [hl] at hp; exact absurd hp (by simp [Except.map])
    | ok l =>
      rw [hl] at hp
      simp only [Except.map, Except.ok.injEq, Prod.mk.injEq] at hp
      obtain ⟨hst, _⟩ := hp
      rw [← hst]
      exact ⟨rfl, rfl⟩
  refine ⟨?_, ?_, ?_⟩
  · intro hdb
    obtain ⟨h1, _⟩ := main { st with database := some d1 } (by rw [hdb])
    rw [h1]
  · intro r hdb
    obtain ⟨h1, _⟩ := main st (by rw [hdb])
    rw [h1, hdb]
  · obtain ⟨h1, h2⟩ := main _ rfl
    have hsome : ∃ r, stA.database = some r := by
      rw [h1]
      cases hdb : st.database with
      | none => simp [hdb]
      | some r => simp [hdb]
    obtain ⟨r, hr⟩ := hsome
    simp only [persist, hr, h2, persistLoop, Except.map]
    have heta : NetState.mk stA.fields stA.primaryKeys stA.requestMap (some r) [] = stA := by
      cases stA
      simp_all
    rw [heta]

/-- Witness for C6: a first attach of store 0 followed by a second attach
of store 1 over a buffer holding one upsert. -/
theorem C6_witness :
    persist (mkNetSt none [cudU1]) dirtyNone 0 =
      .ok (mkNetSt (some 0) [], [.upsertOp "tasks" rec1]) ∧
    (((mkNetSt none [cudU1]).database = none →
       (mkNetSt (some 0) [] : NetState).database = some 0) ∧
     (∀ r, (mkNetSt none [cudU1]).database = some r →
       (mkNetSt (some 0) [] : NetState).database = some r) ∧
     persist (mkNetSt (some 0) []) dirtyNone 1 = .ok (mkNetSt (some 0) [], [])) :=
  ⟨rfl,
   C6_attach_idempotent (mkNetSt none [cudU1]) dirtyNone 0 1
     (mkNetSt (some 0) []) [.upsertOp "tasks" rec1] rfl⟩

end TBSDK.Net

namespace TBSDK.Net

/-- Counterexample to claim C7 as stated: a buffered destroy push whose id
is the empty string materializes a delete whose clause equates the primary
key with the payload of the message (the source falls back to
socketMessage.data when the id is falsy), not with the push id. -/
theorem C7_counterexample :
    persist (mkNetSt none [.socketCUD "tasks" sockFalsy "_id" .null]) dirtyNone 0 =
      .ok (mkNetSt (some 0) [], [.deleteOp "tasks" [("_id", .str "99")]]) ∧
    sockFalsy.id = "" ∧
    TBSDK.Val.str "99" ≠ TBSDK.Val.str sockFalsy.id :=
  ⟨rfl, rfl, by simp [sockFalsy]⟩

/-- Claim C7 (amended): a buffered push materializes during drain as
follows: method destroy or remove schedules a store delete whose clause
equates the primary-key field with the push id when the id is non-empty
(and falls back to the message payload when the id is empty/falsy); method
new schedules an upsert of the payload; method change delegates to the
domain-specific dirty-field merge handler when one exists for the record
type, and otherwise schedules an upsert of the payload merged with the
primary-key field set from the push id; in particular the push
(method destroy, id 42) on table tasks with primary key the underscore-id
field schedules a delete matching that field against 42. -/
theorem C7_push_dispatch (st : NetState) (dirtyH : DirtyHandler) (dref : Nat)
    (arg : String) (m : SocketMessage) (pkName : String) (ty : Val)
    (hdb : st.database = none)
    (hbuf : st.persistedDataBuffer = [.socketCUD arg m pkName ty]) :
    ((m.method = "destroy" ∨ m.method = "remove") → m.id ≠ "" →
      persist st dirtyH dref =
        .ok ({ st with database := some dref, persistedDataBuffer := [] },
             [.deleteOp arg [(pkName, .str m.id)]])) ∧
    ((m.method = "destroy" ∨ m.method = "remove") → m.id = "" →
      persist st dirtyH dref =
        .ok ({ st with database := some dref, persistedDataBuffer := [] },
             [.deleteOp arg [(pkName, m.data)]])) ∧
    (m.method = "new" →
      persist st dirtyH dref =
        .ok ({ st with database := some dref, persistedDataBuffer := [] },
             [.upsertOp arg m.data])) ∧
    (∀ sid, m.method = "change" → dirtyH m.id ty m.data = some sid →
      persist st dirtyH dref =
        .ok ({ st with database := some dref, persistedDataBuffer := [] },
             [.dirtyOp sid])) ∧
    (m.method = "change" → dirtyH m.id ty m.data = none →
      persist st dirtyH dref =
        .ok ({ st with database := some dref, persistedDataBuffer := [] },
             [.upsertOp arg
               (.obj (TBSDK.setFld (TBSDK.objFields m.data) pkName (.str m.id)))])) ∧
    persist (mkNetSt none [.socketCUD "tasks" sock42 "_id" .null]) dirtyNone 0 =
      .ok (mkNetSt (some 0) [], [.deleteOp "tasks" [("_id", .str "42")]]) := by
  have hpred : ∀ (ops : List StoreOp),
      (∀ s2 : NetState, translateOp s2 dirtyH (.socketCUD arg m pkName ty) = .ok ops) →
      persist st dirtyH dref =
        .ok ({ st with database := some dref, persistedDataBuffer := [] }, ops) := by
    intro ops htr
    simp only [persist, hdb]
    have hb1 : ({ st with database := some dref } : NetState).persistedDataBuffer =
        [.socketCUD arg m pkName ty] := hbuf
    rw [hb1]
    simp only [persistLoop, htr _, Except.bind, bind, Except.map]
    simp
  refine ⟨?_, ?_, ?_, ?_, ?_, rfl⟩
  · intro hm hid
    apply hpred
    intro s2
    have hidb : (m.id == "") = false := by simp [hid]
    rcases hm with hm | hm <;>
      simp [translateOp, hm, hidb]
  · intro hm hid
    apply hpred
    intro s2
    have hidb : (m.id == "") = true := by simp [hid]
    rcases hm with hm | hm <;>
      simp [translateOp, hm, hidb]
  · intro hm
    apply hpred
    intro s2
    simp [translateOp, hm]
  · intro sid hm hdirty
    apply hpred
    intro s2
    simp [translateOp, hm, hdirty]
  · intro hm hdirty
    apply hpred
    intro s2
    simp [translateOp, hm, hdirty]

/-- Witness for C7: the spec example push (destroy, id 42) buffered on the
tasks schema. -/
theorem C7_witness :
    ((mkNetSt none [.socketCUD "tasks" sock42 "_id" .null]).database = none ∧
     (mkNetSt none [.socketCUD "tasks" sock42 "_id" .null]).persistedDataBuffer =
       [.socketCUD "tasks" sock42 "_id" .null] ∧
     (sock42.method = "destroy" ∨ sock42.method = "remove") ∧ sock42.id ≠ "") ∧
    persist (mkNetSt none [.socketCUD "tasks" sock42 "_id" .null]) dirtyNone 0 =
      .ok ({ mkNetSt none [.socketCUD "tasks" sock42 "_id" .null] with
              database := some 0, persistedDataBuffer := [] },
           [.deleteOp "tasks" [("_id", .str sock42.id)]]) :=
  ⟨⟨rfl, rfl, Or.inl rfl, by simp [sock42]⟩,
   (C7_push_dispatch (mkNetSt none [.socketCUD "tasks" sock42 "_id" .null])
     dirtyNone 0 "tasks" sock42 "_id" .null rfl rfl).1 (Or.inl rfl)
     (by simp [sock42])⟩

end TBSDK.Net

namespace TBSDK.Net

/-- Counterexample to claim C8 as stated: a write issued against a table
absent from the declared schemas does not throw — issuance succeeds, and
on emission the write path proceeds straight to buffering or to a store
upsert with no schema check, in both attachment states. -/
theorem C8_counterexample :
    stNoSchema.fields.lookup "ghost" = none ∧
    liftIssue stNoSchema (.cudRes cudGhost) = .ok stNoSchema ∧
    (bufferCUDResponse stNoSchema cudGhost (.obj [])).persistedDataBuffer =
      stNoSchema.persistedDataBuffer ++ [.cud "ghost" "upsert" (.recV (.obj []))] ∧
    handleCUDAResult cudGhost (.obj []) = .upsertOp "ghost" (.obj []) :=
  ⟨rfl, rfl, rfl, rfl⟩

/-- Claim C8 (amended): a read issued with a table name not present in the
declared schemas throws the schema TypeError synchronously at issuance, in
both attachment states, before any network or store activity; a read
against a declared table never throws at issuance; a write, however,
performs no schema check at issuance and never raises this error. -/
theorem C8_schema_error (st : NetState) (res : ApiResultM) (resC : CUDApiResultM) :
    (st.fields.lookup res.tableName = none →
      liftIssue st (.apiRes res) =
        .error ("table: " ++ res.tableName ++ " is not defined")) ∧
    (∀ fl, st.fields.lookup res.tableName = some fl →
      ∃ st2, liftIssue st (.apiRes res) = .ok st2) ∧
    liftIssue st (.cudRes resC) = .ok st := by
  refine ⟨?_, ?_, rfl⟩
  · intro hnone
    cases hdb : st.database with
    | none =>
      simp [liftIssue, handleApiResult, hdb, bufferResponse, getInfoFromResult,
        hnone, Except.bind, bind, Except.map]
    | some d =>
      simp [liftIssue, handleApiResult, hdb, handleRequestCache, getInfoFromResult,
        hnone, Except.bind, bind, Except.map]
  · intro fl hsome
    cases hdb : st.database with
    | none =>
      refine ⟨{ st with persistedDataBuffer :=
        st.persistedDataBuffer ++ [.selector res] }, ?_⟩
      simp [liftIssue, handleApiResult, hdb, bufferResponse, getInfoFromResult,
        hsome, Except.bind, bind, Except.map]
    | some d =>
      have hrc : ∃ plan, handleRequestCache st res = .ok plan := by
        simp only [handleRequestCache, getInfoFromResult, hsome, Except.bind, bind]
        split
        · split
          · exact ⟨_, rfl⟩
          · exact ⟨_, rfl⟩
        · exact ⟨_, rfl⟩
      obtain ⟨plan, hplan⟩ := hrc
      exact ⟨st, by simp [liftIssue, handleApiResult, hdb, hplan, Except.map]⟩

/-- Witness for C8: over the tasks schema, a read of an undeclared table
errors at issuance, a read of the declared table does not, and a write
against an undeclared table is accepted without any check. -/
theorem C8_witness :
    (((mkNetSt (some 0) []).fields.lookup "ghost" = none ∧
      liftIssue (mkNetSt (some 0) [])
          (.apiRes ⟨"ghost", [], .Request, none, none, none, none⟩) =
        .error ("table: " ++ "ghost" ++ " is not defined")) ∧
     ((mkNetSt (some 0) []).fields.lookup "tasks" = some ["_id"] ∧
      ∃ st2, liftIssue (mkNetSt (some 0) []) (.apiRes (mkRead .Request)) = .ok st2)) ∧
    liftIssue (mkNetSt (some 0) []) (.cudRes cudGhost) = .ok (mkNetSt (some 0) []) :=
  ⟨⟨⟨rfl,
     (C8_schema_error (mkNetSt (some 0) [])
       ⟨"ghost", [], .Request, none, none, none, none⟩ cudGhost).1 rfl⟩,
    ⟨rfl,
     (C8_schema_error (mkNetSt (some 0) []) (mkRead .Request) cudGhost).2.1 ["_id"] rfl⟩⟩,
   (C8_schema_error (mkNetSt (some 0) []) (mkRead .Request) cudGhost).2.2⟩

end TBSDK.Net
